import Mathlib

/-!
# Verification of the HouseExpenseMS summary/settlement engine

Shallow embedding of the core logic of the household expense tracker
(`script.js` / its updated variant): the responsibility resolver, the
summary engine (`computeSummaryFromList`), the category aggregator
(`computeCategoryTotalsFromList`), the settlement planner
(`computeSettlement`) and the period/handover selection and commit
(`generateHandover` / `confirmHandover`).

Monetary amounts are modelled as exact rationals (the source stores the
amount as a string and applies `parseFloat` before each arithmetic use;
we model the numeric value).  The source's floating-point arithmetic is
modelled by exact arithmetic over `ℚ`, so "zero within 1e-9" claims are
settled as exact equalities.
-/

namespace HouseExpense

/- The rational operations are `@[irreducible]` by default, which blocks
kernel evaluation of concrete summaries; making them semireducible again
(locally) lets `decide` evaluate the embedded functions on the concrete
inputs used by witnesses and counterexamples. -/
attribute [local semireducible] Rat.add Rat.sub Rat.mul Rat.inv

/-- The fixed member roster (constant `members` in the script). -/
def members : List String :=
  ["Asim", "Appy", "Chire", "Priyash", "Pratikshya", "Ashmi"]

/-- The fixed category enumeration (constant `categories` in the script). -/
def categories : List String :=
  ["Groceries", "Bills/Utilities", "Entertainment", "Dining Out", "Transport", "Miscellaneous"]

/-- An expense record.  Only the fields the core logic reads are modelled
(`title`, `description` and `payment` are presentation-only).  The two
optional cost-sharing fields mirror the JS object properties
`responsible` and `beneficiaries` (`none` = property absent). -/
structure Expense where
  id : Nat := 0
  date : String := ""
  amount : ℚ := 0
  category : String := ""
  payer : String := ""
  responsible : Option (List String) := none
  beneficiaries : Option (List String) := none
  handover_id : Option Nat := none
deriving DecidableEq

/-- `exp.responsible || exp.beneficiaries || []`: a present `responsible`
array wins (even when empty, since a JS array is truthy), otherwise a
present `beneficiaries` array, otherwise the empty list. -/
def respOf (e : Expense) : List String :=
  e.responsible.getD (e.beneficiaries.getD [])

/-- The responsibility resolver inlined in `computeSummaryFromList`:
`if (resp.includes('All')) respList = [...members]; else respList = resp;`. -/
def resolveResponsibility (resp : List String) : List String :=
  if "All" ∈ resp then members else resp

/-- The share divisor `respList.length || 1` (JS `||` turns a zero length
into 1). -/
def shareDivisor (respList : List String) : ℚ :=
  if respList.length = 0 then 1 else (respList.length : ℚ)

/-- Per-member running totals, the `{ paid, share }` objects of the
summary. -/
structure MemberTotals where
  paid : ℚ := 0
  share : ℚ := 0
deriving DecidableEq

/-- A summary is keyed by member name.  The JS object always has exactly
the roster members as keys; we model it as a total function that is only
ever updated at roster members. -/
def Summary : Type := String → MemberTotals

/-- `summary[m] = { paid: 0, share: 0 }` for every roster member. -/
def initialSummary : Summary := fun _ => {}

/-- `if (summary[name]) summary[name].paid += a` — the guard is key
existence, i.e. membership in the roster. -/
def bumpPaid (s : Summary) (name : String) (a : ℚ) : Summary :=
  fun m => if m = name ∧ m ∈ members then { s m with paid := (s m).paid + a } else s m

/-- `if (summary[name]) summary[name].share += a`. -/
def bumpShare (s : Summary) (name : String) (a : ℚ) : Summary :=
  fun m => if m = name ∧ m ∈ members then { s m with share := (s m).share + a } else s m

/-- The body of the `list.forEach(exp => ...)` loop in
`computeSummaryFromList`. -/
def applyExpense (s : Summary) (e : Expense) : Summary :=
  let s1 := bumpPaid s e.payer e.amount
  let respList := resolveResponsibility (respOf e)
  let share := e.amount / shareDivisor respList
  respList.foldl (fun acc name => bumpShare acc name share) s1

/-- `computeSummaryFromList(list)`: initialize every roster member to
`{paid: 0, share: 0}` and fold the loop body over the list. -/
def computeSummaryFromList (list : List Expense) : Summary :=
  list.foldl applyExpense initialSummary

/-- `net = share - paid` (computed by the callers of the summary). -/
def net (s : Summary) (m : String) : ℚ := (s m).share - (s m).paid

/-- The sum of all roster members' nets. -/
def memberNetSum (s : Summary) : ℚ := (members.map (fun m => net s m)).sum

/-- A well-formed expense record per the data model: the payer is a
roster member and the cost-sharing selection either contains the `All`
sentinel or is a non-empty set of roster member names. -/
def ValidExpense (e : Expense) : Prop :=
  e.payer ∈ members ∧
    ("All" ∈ respOf e ∨ (respOf e ≠ [] ∧ ∀ n ∈ respOf e, n ∈ members))

instance (e : Expense) : Decidable (ValidExpense e) := by
  unfold ValidExpense; infer_instance

lemma members_nodup : members.Nodup := by decide

lemma members_length : members.length = 6 := by decide

/-! ## Pointwise facts about the summary updates -/

lemma bumpShare_paid (s : Summary) (name : String) (a : ℚ) (m : String) :
    (bumpShare s name a m).paid = (s m).paid := by
  unfold bumpShare; split <;> rfl

lemma bumpPaid_share (s : Summary) (name : String) (a : ℚ) (m : String) :
    (bumpPaid s name a m).share = (s m).share := by
  unfold bumpPaid; split <;> rfl

lemma bumpShare_share_ne (s : Summary) (name : String) (a : ℚ) (m : String)
    (h : m ≠ name) : (bumpShare s name a m).share = (s m).share := by
  unfold bumpShare
  rw [if_neg]
  intro hc
  exact h hc.1

lemma bumpShare_share_self (s : Summary) (name : String) (a : ℚ)
    (h : name ∈ members) : (bumpShare s name a name).share = (s name).share + a := by
  unfold bumpShare
  rw [if_pos ⟨rfl, h⟩]

lemma bumpPaid_paid_ne (s : Summary) (name : String) (a : ℚ) (m : String)
    (h : m ≠ name) : (bumpPaid s name a m).paid = (s m).paid := by
  unfold bumpPaid
  rw [if_neg]
  intro hc
  exact h hc.1

lemma bumpPaid_paid_self (s : Summary) (name : String) (a : ℚ)
    (h : name ∈ members) : (bumpPaid s name a name).paid = (s name).paid + a := by
  unfold bumpPaid
  rw [if_pos ⟨rfl, h⟩]

/-- Summing a function over a duplicate-free list after changing it at
one point changes the sum by the difference at that point. -/
lemma sum_map_update (M : List String) (f g : String → ℚ) (n : String)
    (hM : M.Nodup) (hne : ∀ m, m ≠ n → g m = f m) :
    (M.map g).sum = (M.map f).sum + (if n ∈ M then g n - f n else 0) := by
  induction M with
  | nil => simp
  | cons x xs ih =>
    rcases List.nodup_cons.mp hM with ⟨hx, hxs⟩
    by_cases hxn : x = n
    · subst hxn
      have hmap : xs.map g = xs.map f :=
        List.map_congr_left (fun m hm => hne m (fun he => hx (he ▸ hm)))
      simp only [List.map_cons, List.sum_cons, hmap, List.mem_cons, true_or, if_pos]
      ring
    · have hgx : g x = f x := hne x hxn
      have hmem : n ∈ x :: xs ↔ n ∈ xs := by
        constructor
        · intro h
          rcases List.mem_cons.mp h with h | h
          · exact absurd h.symm hxn
          · exact h
        · exact List.mem_cons_of_mem x
      by_cases hn : n ∈ xs
      · rw [List.map_cons, List.map_cons, List.sum_cons, List.sum_cons, hgx, ih hxs,
          if_pos hn, if_pos (hmem.mpr hn)]
        ring
      · rw [List.map_cons, List.map_cons, List.sum_cons, List.sum_cons, hgx, ih hxs,
          if_neg hn, if_neg (fun hc => hn (hmem.mp hc))]
        ring

lemma shareSum_bumpShare (s : Summary) (name : String) (a : ℚ) :
    (members.map (fun m => (bumpShare s name a m).share)).sum
      = (members.map (fun m => (s m).share)).sum + (if name ∈ members then a else 0) := by
  rw [sum_map_update members (fun m => (s m).share)
      (fun m => (bumpShare s name a m).share) name members_nodup
      (fun m hm => bumpShare_share_ne s name a m hm)]
  by_cases h : name ∈ members
  · rw [if_pos h, if_pos h, bumpShare_share_self s name a h]; ring
  · rw [if_neg h, if_neg h]

lemma paidSum_bumpPaid (s : Summary) (name : String) (a : ℚ) :
    (members.map (fun m => (bumpPaid s name a m).paid)).sum
      = (members.map (fun m => (s m).paid)).sum + (if name ∈ members then a else 0) := by
  rw [sum_map_update members (fun m => (s m).paid)
      (fun m => (bumpPaid s name a m).paid) name members_nodup
      (fun m hm => bumpPaid_paid_ne s name a m hm)]
  by_cases h : name ∈ members
  · rw [if_pos h, if_pos h, bumpPaid_paid_self s name a h]; ring
  · rw [if_neg h, if_neg h]

/-- Folding share bumps over a list of names leaves every `paid` field
unchanged. -/
lemma foldl_bumpShare_paid (L : List String) (s : Summary) (a : ℚ) (m : String) :
    ((L.foldl (fun acc name => bumpShare acc name a) s) m).paid = (s m).paid := by
  induction L generalizing s with
  | nil => rfl
  | cons n L ih => rw [List.foldl_cons, ih, bumpShare_paid]

/-- Folding share bumps adds the share once per occurrence of a roster
member in the list. -/
lemma foldl_bumpShare_shareSum (L : List String) (s : Summary) (a : ℚ) :
    (members.map (fun m => ((L.foldl (fun acc name => bumpShare acc name a) s) m).share)).sum
      = (members.map (fun m => (s m).share)).sum
        + a * (L.countP (fun n => decide (n ∈ members)) : ℚ) := by
  induction L generalizing s with
  | nil => simp
  | cons n L ih =>
    rw [List.foldl_cons, ih, shareSum_bumpShare]
    by_cases h : n ∈ members
    · rw [if_pos h, List.countP_cons_of_pos _ _ (by simpa using h)]
      push_cast
      ring
    · rw [if_neg h, List.countP_cons_of_neg _ _ (by simpa using h)]
      ring

lemma netSum_split (s : Summary) :
    memberNetSum s
      = (members.map (fun m => (s m).share)).sum - (members.map (fun m => (s m).paid)).sum := by
  unfold memberNetSum net
  induction members with
  | nil => simp
  | cons x xs ih => simp only [List.map_cons, List.sum_cons, ih]; ring

lemma countP_mem_of_subset (L : List String) (h : ∀ n ∈ L, n ∈ members) :
    L.countP (fun n => decide (n ∈ members)) = L.length := by
  apply List.countP_eq_length.mpr
  intro n hn
  simpa using h n hn

/-- Processing one well-formed expense does not change the net sum. -/
lemma netSum_applyExpense (s : Summary) (e : Expense) (he : ValidExpense e) :
    memberNetSum (applyExpense s e) = memberNetSum s := by
  rcases he with ⟨hp, hresp⟩
  unfold applyExpense
  rw [netSum_split, netSum_split]
  have hpaid : (members.map (fun m =>
        ((((resolveResponsibility (respOf e))).foldl
          (fun acc name => bumpShare acc name (e.amount / shareDivisor (resolveResponsibility (respOf e))))
          (bumpPaid s e.payer e.amount)) m).paid)).sum
      = (members.map (fun m => (s m).paid)).sum + e.amount := by
    have h1 : ∀ m, ((((resolveResponsibility (respOf e))).foldl
          (fun acc name => bumpShare acc name (e.amount / shareDivisor (resolveResponsibility (respOf e))))
          (bumpPaid s e.payer e.amount)) m).paid = (bumpPaid s e.payer e.amount m).paid :=
      fun m => foldl_bumpShare_paid _ _ _ m
    rw [List.map_congr_left (fun m _ => h1 m), paidSum_bumpPaid, if_pos hp]
  have hshare : (members.map (fun m =>
        ((((resolveResponsibility (respOf e))).foldl
          (fun acc name => bumpShare acc name (e.amount / shareDivisor (resolveResponsibility (respOf e))))
          (bumpPaid s e.payer e.amount)) m).share)).sum
      = (members.map (fun m => (s m).share)).sum + e.amount := by
    rw [foldl_bumpShare_shareSum]
    have hs : ∀ m, (bumpPaid s e.payer e.amount m).share = (s m).share :=
      fun m => bumpPaid_share _ _ _ m
    rw [List.map_congr_left (fun m _ => hs m)]
    rcases hresp with hAll | ⟨hne, hsub⟩
    · have hr : resolveResponsibility (respOf e) = members := by
        unfold resolveResponsibility; rw [if_pos hAll]
      rw [hr, countP_mem_of_subset members (fun n hn => hn), members_length]
      have hdiv : shareDivisor members = 6 := by
        unfold shareDivisor
        rw [if_neg (by rw [members_length]; omega), members_length]
        norm_num
      rw [hdiv]
      norm_num
    · have hAll' : "All" ∉ respOf e := by
        intro hc
        exact absurd (hsub "All" hc) (by decide)
      have hr : resolveResponsibility (respOf e) = respOf e := by
        unfold resolveResponsibility; rw [if_neg hAll']
      rw [hr, countP_mem_of_subset (respOf e) hsub]
      have hlen : (respOf e).length ≠ 0 := by
        intro hc
        exact hne (List.length_eq_zero.mp hc)
      have hdiv : shareDivisor (respOf e) = ((respOf e).length : ℚ) := by
        unfold shareDivisor; rw [if_neg hlen]
      rw [hdiv, div_mul_cancel₀]
      exact_mod_cast hlen
  rw [hpaid, hshare]
  ring

/-- **C1** (zero-sum invariant): for any list of well-formed expenses the
per-member nets produced by `computeSummaryFromList` sum to exactly zero. -/
theorem c1_zero_sum (list : List Expense) (h : ∀ e ∈ list, ValidExpense e) :
    memberNetSum (computeSummaryFromList list) = 0 := by
  unfold computeSummaryFromList
  have hgen : ∀ s : Summary, memberNetSum (list.foldl applyExpense s) = memberNetSum s := by
    induction list with
    | nil => intro s; rfl
    | cons e l ih =>
      intro s
      rw [List.foldl_cons,
        ih (fun x hx => h x (List.mem_cons_of_mem e hx)) (applyExpense s e),
        netSum_applyExpense s e (h e (List.mem_cons_self e l))]
  rw [hgen initialSummary]
  rw [netSum_split]
  simp [initialSummary]

/-- Witness for C1 on the spec §8 scenario (`A` pays 100, responsibility
`All`, plus a split expense). -/
theorem c1_zero_sum_witness :
    (∀ e ∈ [({ amount := 100, payer := "Asim", responsible := some ["All"] } : Expense),
            { amount := 60, payer := "Asim", responsible := some ["Appy", "Chire"] }],
        ValidExpense e) ∧
    memberNetSum (computeSummaryFromList
      [({ amount := 100, payer := "Asim", responsible := some ["All"] } : Expense),
       { amount := 60, payer := "Asim", responsible := some ["Appy", "Chire"] }]) = 0 :=
  ⟨by decide, c1_zero_sum _ (by decide)⟩

/-! ## Pointwise share/paid results (responsibility resolver behaviour) -/

/-- Folding share bumps over a duplicate-free name list adds the share to
a roster member exactly when the member occurs in the list. -/
lemma foldl_bumpShare_share (L : List String) (s : Summary) (a : ℚ) (m : String)
    (hnd : L.Nodup) (hm : m ∈ members) :
    ((L.foldl (fun acc name => bumpShare acc name a) s) m).share
      = (s m).share + (if m ∈ L then a else 0) := by
  induction L generalizing s with
  | nil => simp
  | cons n L ih =>
    rcases List.nodup_cons.mp hnd with ⟨hn, hL⟩
    rw [List.foldl_cons, ih (bumpShare s n a) hL]
    by_cases hmn : m = n
    · subst hmn
      rw [bumpShare_share_self s m a hm, if_neg hn, if_pos (List.mem_cons_self m L)]
      ring
    · rw [bumpShare_share_ne s n a m hmn]
      have hmem : m ∈ n :: L ↔ m ∈ L := by
        rw [List.mem_cons]
        exact or_iff_right hmn
      by_cases hc : m ∈ L
      · rw [if_pos hc, if_pos (hmem.mpr hc)]
      · rw [if_neg hc, if_neg (fun hx => hc (hmem.mp hx))]

lemma applyExpense_share (s : Summary) (e : Expense) (m : String)
    (hnd : (resolveResponsibility (respOf e)).Nodup) (hm : m ∈ members) :
    (applyExpense s e m).share
      = (s m).share + (if m ∈ resolveResponsibility (respOf e)
          then e.amount / shareDivisor (resolveResponsibility (respOf e)) else 0) := by
  unfold applyExpense
  rw [foldl_bumpShare_share _ _ _ _ hnd hm, bumpPaid_share]

lemma applyExpense_paid (s : Summary) (e : Expense) (m : String) (hm : m ∈ members) :
    (applyExpense s e m).paid = (s m).paid + (if m = e.payer then e.amount else 0) := by
  unfold applyExpense
  rw [foldl_bumpShare_paid]
  by_cases h : m = e.payer
  · subst h
    rw [bumpPaid_paid_self s e.payer e.amount hm, if_pos rfl]
  · rw [bumpPaid_paid_ne s e.payer e.amount m h, if_neg h]
    ring

/-- **C4 counterexample**: an empty (`responsible: []`) or missing
cost-sharing selection resolves to the *empty* list, not to the full
roster (which is non-empty) — refuting both "empty/missing returns the
full roster" and "never empty for a non-empty roster". -/
theorem c4_counterexample :
    resolveResponsibility (respOf { responsible := some [] }) = [] ∧
    resolveResponsibility (respOf ({} : Expense)) = [] ∧
    members ≠ ([] : List String) := by decide

/-- **C4 (amended)**: a selection containing the sentinel `All` resolves
to the full roster; an empty selection resolves to the empty list (the
downstream divisor is then guarded to 1, so no share is allocated). -/
theorem c4_resolver_amended (resp : List String) (h : "All" ∈ resp) :
    resolveResponsibility resp = members ∧
    resolveResponsibility [] = [] ∧
    shareDivisor (resolveResponsibility []) = 1 := by
  refine ⟨?_, by decide, ?_⟩
  · unfold resolveResponsibility
    rw [if_pos h]
  · unfold resolveResponsibility shareDivisor
    simp

/-- Witness for the amended C4 at the concrete selection
`["Asim", "All"]`. -/
theorem c4_resolver_amended_witness :
    ("All" ∈ ["Asim", "All"]) ∧
    resolveResponsibility ["Asim", "All"] = members :=
  ⟨by decide, (c4_resolver_amended ["Asim", "All"] (by decide)).1⟩

/-- An expense whose explicit selection mixes a roster member with an
unknown name (used for C5). -/
def mixedRespExpense : Expense :=
  { amount := 10, payer := "Asim", responsible := some ["Asim", "Bob"] }

/-- **C5 counterexample**: with selection `["Asim", "Bob"]` (`"Bob"` not
in the roster) and amount 10, the code credits Asim `10 / 2 = 5`:
the unknown name *does* contribute to the divisor, whereas the claim's
`amount / |filtered set|` would be `10 / 1 = 10`. -/
theorem c5_counterexample :
    (computeSummaryFromList [mixedRespExpense] "Asim").share ≠
      mixedRespExpense.amount
        / (((respOf mixedRespExpense).filter (fun n => decide (n ∈ members))).length : ℚ) := by
  have hfilter : (respOf mixedRespExpense).filter (fun n => decide (n ∈ members)) = ["Asim"] := by
    decide
  have hr : resolveResponsibility (respOf mixedRespExpense) = ["Asim", "Bob"] := by decide
  have h := applyExpense_share initialSummary mixedRespExpense "Asim"
    (by rw [hr]; decide) (by decide)
  rw [show computeSummaryFromList [mixedRespExpense]
        = applyExpense initialSummary mixedRespExpense from rfl, h, hr, hfilter]
  rw [if_pos (by decide : "Asim" ∈ ["Asim", "Bob"])]
  have hdiv : shareDivisor ["Asim", "Bob"] = 2 := by
    unfold shareDivisor
    norm_num
  rw [hdiv]
  norm_num [initialSummary, mixedRespExpense]

/-- **C5 (amended)**: for an explicit duplicate-free selection (no `All`
sentinel), the per-head share divisor is the size of the *unfiltered*
selection (unknown names included, guarded to 1 when empty); a roster
member receives that per-head share exactly when listed, and names
outside the roster receive nothing (they are dropped only at
share-crediting time). -/
theorem c5_share_amended (e : Expense) (hAll : "All" ∉ respOf e) (hnd : (respOf e).Nodup)
    (m : String) (hm : m ∈ members) :
    (computeSummaryFromList [e] m).share
      = if m ∈ respOf e then e.amount / shareDivisor (respOf e) else 0 := by
  have hr : resolveResponsibility (respOf e) = respOf e := by
    unfold resolveResponsibility
    rw [if_neg hAll]
  have h := applyExpense_share initialSummary e m (by rw [hr]; exact hnd) hm
  rw [show computeSummaryFromList [e] = applyExpense initialSummary e from rfl, h, hr]
  simp [initialSummary]

/-- Witness for the amended C5 on `mixedRespExpense`: Asim's share is the
amount over the unfiltered selection size. -/
theorem c5_share_amended_witness :
    ("All" ∉ respOf mixedRespExpense) ∧ (respOf mixedRespExpense).Nodup ∧
    (computeSummaryFromList [mixedRespExpense] "Asim").share
      = (if "Asim" ∈ respOf mixedRespExpense
          then mixedRespExpense.amount / shareDivisor (respOf mixedRespExpense) else 0) :=
  ⟨by decide, by decide,
    c5_share_amended mixedRespExpense (by decide) (by decide) "Asim" (by decide)⟩

/-- An expense with an empty explicit selection (used for C9). -/
def emptyRespExpense : Expense :=
  { amount := 7, payer := "Asim", responsible := some [] }

/-- **C9**: the summary engine is total on an expense with an empty
responsibility list — the divisor is guarded to 1 — and for such an
expense the full amount lands on the payer's `paid` while every roster
member's `share` stays 0. -/
theorem c9_empty_responsibility (e : Expense) (h : respOf e = []) (_hp : e.payer ∈ members)
    (m : String) (hm : m ∈ members) :
    shareDivisor (resolveResponsibility (respOf e)) = 1 ∧
    (computeSummaryFromList [e] m).share = 0 ∧
    (computeSummaryFromList [e] m).paid = (if m = e.payer then e.amount else 0) := by
  have hr : resolveResponsibility (respOf e) = [] := by
    unfold resolveResponsibility
    rw [h]
    simp
  refine ⟨?_, ?_, ?_⟩
  · rw [hr]
    unfold shareDivisor
    simp
  · have hs := applyExpense_share initialSummary e m (by rw [hr]; exact List.nodup_nil) hm
    rw [show computeSummaryFromList [e] = applyExpense initialSummary e from rfl, hs, hr]
    simp [initialSummary]
  · have hpd := applyExpense_paid initialSummary e m hm
    rw [show computeSummaryFromList [e] = applyExpense initialSummary e from rfl, hpd]
    simp [initialSummary]

/-- Witness for C9: a 7-unit expense paid by Asim with empty selection
puts 7 on Asim's paid and nothing on Asim's share. -/
theorem c9_empty_responsibility_witness :
    (respOf emptyRespExpense = []) ∧ ("Asim" ∈ members) ∧
    ((computeSummaryFromList [emptyRespExpense] "Asim").share = 0 ∧
      (computeSummaryFromList [emptyRespExpense] "Asim").paid
        = (if "Asim" = emptyRespExpense.payer then emptyRespExpense.amount else 0)) :=
  ⟨by decide, by decide,
    (c9_empty_responsibility emptyRespExpense (by decide) (by decide) "Asim" (by decide)).2⟩

/-- An expense whose selection mixes `All` with an explicit name (used
for C10). -/
def allMixedExpense : Expense :=
  { amount := 12, payer := "Asim", responsible := some ["Appy", "All"] }

/-- **C10**: any selection containing the `All` sentinel — even next to
explicit names — resolves to the full roster, and every roster member's
share of such an expense is the amount divided by the roster size. -/
theorem c10_all_sentinel (e : Expense) (h : "All" ∈ respOf e) (m : String) (hm : m ∈ members) :
    resolveResponsibility (respOf e) = members ∧
    (computeSummaryFromList [e] m).share = e.amount / (members.length : ℚ) := by
  have hr : resolveResponsibility (respOf e) = members := by
    unfold resolveResponsibility
    rw [if_pos h]
  refine ⟨hr, ?_⟩
  have hlem := applyExpense_share initialSummary e m (by rw [hr]; exact members_nodup) hm
  rw [show computeSummaryFromList [e] = applyExpense initialSummary e from rfl, hlem, hr,
    if_pos hm]
  have hdiv : shareDivisor members = (members.length : ℚ) := by
    unfold shareDivisor
    rw [if_neg (by rw [members_length]; omega)]
  rw [hdiv]
  simp [initialSummary]

/-- Witness for C10: `["Appy", "All"]` with amount 12 gives Pratikshya a
share of `12 / 6`. -/
theorem c10_all_sentinel_witness :
    ("All" ∈ respOf allMixedExpense) ∧
    (computeSummaryFromList [allMixedExpense] "Pratikshya").share
      = allMixedExpense.amount / (members.length : ℚ) :=
  ⟨by decide, (c10_all_sentinel allMixedExpense (by decide) "Pratikshya" (by decide)).2⟩

/-! ## Settlement planner (`computeSettlement`)

The source pushes display strings of the form
`"<from> to <to>: $<amount.toFixed(2)>"`; we model each pushed
transaction by the structured triple it renders (with the exact,
unrounded amount). -/

/-- A `{ name, amount }` entry of the `debtors`/`receivers` arrays. -/
structure Entry where
  name : String
  amount : ℚ
deriving DecidableEq

instance : Inhabited Entry := ⟨⟨"", 0⟩⟩

/-- A settlement transaction (`payer` pays `payee` `amount`). -/
structure Tx where
  payer : String
  payee : String
  amount : ℚ
deriving DecidableEq

/-- The `debtors` array: members with `net > 0.01`, pushed in roster
order with their net as the owed amount. -/
def debtorsOf (s : Summary) : List Entry :=
  (members.filter (fun name => decide (net s name > 1/100))).map
    (fun name => { name := name, amount := net s name })

/-- The `receivers` array: members with `net < -0.01`, pushed in roster
order with `-net` as the amount they are owed. -/
def receiversOf (s : Summary) : List Entry :=
  (members.filter (fun name => decide (net s name < -(1/100)))).map
    (fun name => { name := name, amount := -(net s name) })

/-- `receivers.sort((a, b) => b.amount - a.amount)`: stable descending
sort by owed amount. -/
def sortReceivers (receivers : List Entry) : List Entry :=
  receivers.mergeSort (fun a b => decide (b.amount ≤ a.amount))

/-- The transaction construction on the sorted receiver list: every
debtor pays the head receiver, who then pays out every other receiver. -/
def settleWith (debtors : List Entry) (sorted : List Entry) : List Tx :=
  match sorted with
  | [] => []
  | highest :: rest =>
      debtors.map (fun d => { payer := d.name, payee := highest.name, amount := d.amount })
        ++ rest.map (fun r => { payer := highest.name, payee := r.name, amount := r.amount })

/-- `computeSettlement(summary)`. -/
def computeSettlement (s : Summary) : List Tx :=
  if debtorsOf s = [] ∨ receiversOf s = [] then []
  else settleWith (debtorsOf s) (sortReceivers (receiversOf s))

/-- **C3** (settlement transaction count): when both classes are
non-empty the plan has `debtorCount + receiverCount - 1` transactions,
otherwise it is empty. -/
theorem c3_transaction_count (s : Summary) :
    ((debtorsOf s ≠ [] ∧ receiversOf s ≠ []) →
      (computeSettlement s).length
        = (debtorsOf s).length + (receiversOf s).length - 1) ∧
    ((debtorsOf s = [] ∨ receiversOf s = []) → (computeSettlement s).length = 0) := by
  constructor
  · rintro ⟨hd, hr⟩
    unfold computeSettlement
    rw [if_neg (by tauto)]
    have hlen : (sortReceivers (receiversOf s)).length = (receiversOf s).length := by
      unfold sortReceivers
      exact List.length_mergeSort _
    rcases hsort : sortReceivers (receiversOf s) with _ | ⟨hub, rest⟩
    · rw [hsort] at hlen
      exact absurd (List.length_eq_zero.mp hlen.symm) hr
    · rw [hsort] at hlen
      unfold settleWith
      rw [List.length_append, List.length_map, List.length_map]
      rw [List.length_cons] at hlen
      omega
  · intro h
    unfold computeSettlement
    rw [if_pos h]
    rfl

/-- Witness for C3 at a concrete summary with one debtor and one
receiver: exactly one transaction. -/
def exSummaryW : Summary := fun m =>
  if m = "Asim" then { paid := 100, share := 50 }
  else if m = "Appy" then { paid := 0, share := 50 }
  else { paid := 0, share := 0 }

theorem c3_transaction_count_witness :
    (computeSettlement exSummaryW).length
      = (debtorsOf exSummaryW).length + (receiversOf exSummaryW).length - 1 :=
  (c3_transaction_count exSummaryW).1 ⟨by decide, by decide⟩

/-! ## Inflow/outflow accounting for the settlement plan -/

/-- Sum of a transaction list's amounts paid *to* `x`. -/
def inflow (txs : List Tx) (x : String) : ℚ :=
  ((txs.filter (fun t => t.payee == x)).map Tx.amount).sum

/-- Sum of a transaction list's amounts paid *by* `x`. -/
def outflow (txs : List Tx) (x : String) : ℚ :=
  ((txs.filter (fun t => t.payer == x)).map Tx.amount).sum

/-- Sum of the amounts of a list of entries. -/
def sumAmounts (L : List Entry) : ℚ := (L.map Entry.amount).sum

/-- Sum of the amounts of the entries named `x`. -/
def nameSum (L : List Entry) (x : String) : ℚ :=
  ((L.filter (fun e => e.name == x)).map Entry.amount).sum

lemma sumAmounts_cons (e : Entry) (L : List Entry) :
    sumAmounts (e :: L) = e.amount + sumAmounts L := by
  unfold sumAmounts
  rw [List.map_cons, List.sum_cons]

lemma inflow_cons (t : Tx) (ts : List Tx) (x : String) :
    inflow (t :: ts) x = (if t.payee = x then t.amount else 0) + inflow ts x := by
  unfold inflow
  by_cases h : t.payee = x
  · rw [List.filter_cons_of_pos (by simpa using h), List.map_cons, List.sum_cons, if_pos h]
  · rw [List.filter_cons_of_neg (by simpa using h), if_neg h, zero_add]

lemma outflow_cons (t : Tx) (ts : List Tx) (x : String) :
    outflow (t :: ts) x = (if t.payer = x then t.amount else 0) + outflow ts x := by
  unfold outflow
  by_cases h : t.payer = x
  · rw [List.filter_cons_of_pos (by simpa using h), List.map_cons, List.sum_cons, if_pos h]
  · rw [List.filter_cons_of_neg (by simpa using h), if_neg h, zero_add]

lemma nameSum_cons (e : Entry) (L : List Entry) (x : String) :
    nameSum (e :: L) x = (if e.name = x then e.amount else 0) + nameSum L x := by
  unfold nameSum
  by_cases h : e.name = x
  · rw [List.filter_cons_of_pos (by simpa using h), List.map_cons, List.sum_cons, if_pos h]
  · rw [List.filter_cons_of_neg (by simpa using h), if_neg h, zero_add]

lemma inflow_append (t1 t2 : List Tx) (x : String) :
    inflow (t1 ++ t2) x = inflow t1 x + inflow t2 x := by
  unfold inflow
  rw [List.filter_append, List.map_append, List.sum_append]

lemma outflow_append (t1 t2 : List Tx) (x : String) :
    outflow (t1 ++ t2) x = outflow t1 x + outflow t2 x := by
  unfold outflow
  rw [List.filter_append, List.map_append, List.sum_append]

/-- Inflow of the "debtors pay the hub" block: everything goes to the
hub. -/
lemma inflow_toHub (L : List Entry) (h x : String) :
    inflow (L.map (fun d => { payer := d.name, payee := h, amount := d.amount : Tx })) x
      = if h = x then sumAmounts L else 0 := by
  induction L with
  | nil => by_cases hc : h = x <;> simp [inflow, sumAmounts, hc]
  | cons d L ih =>
    rw [List.map_cons, inflow_cons, ih, sumAmounts_cons]
    by_cases hc : h = x
    · rw [if_pos hc, if_pos hc, if_pos hc]
    · rw [if_neg hc, if_neg hc, if_neg hc]
      ring

/-- Outflow of the "debtors pay the hub" block: keyed by debtor name. -/
lemma outflow_toHub (L : List Entry) (h x : String) :
    outflow (L.map (fun d => { payer := d.name, payee := h, amount := d.amount : Tx })) x
      = nameSum L x := by
  induction L with
  | nil => simp [outflow, nameSum]
  | cons d L ih =>
    rw [List.map_cons, outflow_cons, ih, nameSum_cons]

/-- Inflow of the "hub pays the other receivers" block: keyed by
receiver name. -/
lemma inflow_fromHub (L : List Entry) (h x : String) :
    inflow (L.map (fun r => { payer := h, payee := r.name, amount := r.amount : Tx })) x
      = nameSum L x := by
  induction L with
  | nil => simp [inflow, nameSum]
  | cons r L ih =>
    rw [List.map_cons, inflow_cons, ih, nameSum_cons]

/-- Outflow of the "hub pays the other receivers" block: everything
comes from the hub. -/
lemma outflow_fromHub (L : List Entry) (h x : String) :
    outflow (L.map (fun r => { payer := h, payee := r.name, amount := r.amount : Tx })) x
      = if h = x then sumAmounts L else 0 := by
  induction L with
  | nil => by_cases hc : h = x <;> simp [outflow, sumAmounts, hc]
  | cons r L ih =>
    rw [List.map_cons, outflow_cons, ih, sumAmounts_cons]
    by_cases hc : h = x
    · rw [if_pos hc, if_pos hc, if_pos hc]
    · rw [if_neg hc, if_neg hc, if_neg hc]
      ring

/-- On a list of entries with duplicate-free names whose amounts are a
function of the name, `nameSum` reads off that function. -/
lemma nameSum_eval (L : List Entry) (g : String → ℚ) (x : String)
    (hg : ∀ e ∈ L, e.amount = g e.name) (hnd : (L.map Entry.name).Nodup) :
    nameSum L x = if x ∈ L.map Entry.name then g x else 0 := by
  induction L with
  | nil => simp [nameSum]
  | cons e L ih =>
    rw [List.map_cons] at hnd ⊢
    rcases List.nodup_cons.mp hnd with ⟨hn, hL⟩
    rw [nameSum_cons, ih (fun a ha => hg a (List.mem_cons_of_mem e ha)) hL]
    by_cases hex : e.name = x
    · have hxL : x ∉ L.map Entry.name := hex ▸ hn
      rw [if_pos hex, if_neg hxL, if_pos (hex ▸ List.mem_cons_self e.name _),
        hg e (List.mem_cons_self e L), hex]
      ring
    · rw [if_neg hex, zero_add]
      have hmm : x ∈ e.name :: L.map Entry.name ↔ x ∈ L.map Entry.name := by
        rw [List.mem_cons]
        exact or_iff_right (fun hc => hex hc.symm)
      by_cases hc : x ∈ L.map Entry.name
      · rw [if_pos hc, if_pos (hmm.mpr hc)]
      · rw [if_neg hc, if_neg (fun hy => hc (hmm.mp hy))]

lemma map_name_mk (L : List String) (g : String → ℚ) :
    (L.map (fun n => ({ name := n, amount := g n } : Entry))).map Entry.name = L := by
  induction L with
  | nil => rfl
  | cons n L ih => rw [List.map_cons, List.map_cons, ih]

lemma sumAmounts_mk (L : List String) (g : String → ℚ) :
    sumAmounts (L.map (fun n => ({ name := n, amount := g n } : Entry))) = (L.map g).sum := by
  induction L with
  | nil => rfl
  | cons n L ih =>
    rw [List.map_cons, sumAmounts_cons, ih, List.map_cons, List.sum_cons]

lemma debtorsOf_names (s : Summary) :
    (debtorsOf s).map Entry.name
      = members.filter (fun n => decide (net s n > 1/100)) :=
  map_name_mk _ _

lemma receiversOf_names (s : Summary) :
    (receiversOf s).map Entry.name
      = members.filter (fun n => decide (net s n < -(1/100))) :=
  map_name_mk _ _

lemma debtorsOf_names_nodup (s : Summary) : ((debtorsOf s).map Entry.name).Nodup := by
  rw [debtorsOf_names]
  exact members_nodup.filter _

lemma receiversOf_names_nodup (s : Summary) : ((receiversOf s).map Entry.name).Nodup := by
  rw [receiversOf_names]
  exact members_nodup.filter _

lemma mem_debtorsOf_names (s : Summary) (x : String) :
    x ∈ (debtorsOf s).map Entry.name ↔ (x ∈ members ∧ net s x > 1/100) := by
  rw [debtorsOf_names, List.mem_filter]
  simp

lemma mem_receiversOf_names (s : Summary) (x : String) :
    x ∈ (receiversOf s).map Entry.name ↔ (x ∈ members ∧ net s x < -(1/100)) := by
  rw [receiversOf_names, List.mem_filter]
  simp

lemma debtorsOf_spec (s : Summary) :
    ∀ d ∈ debtorsOf s, d.name ∈ members ∧ net s d.name > 1/100 ∧ d.amount = net s d.name := by
  intro d hd
  unfold debtorsOf at hd
  rcases List.mem_map.mp hd with ⟨n, hn, rfl⟩
  rcases List.mem_filter.mp hn with ⟨hmem, hcond⟩
  exact ⟨hmem, of_decide_eq_true hcond, rfl⟩

lemma receiversOf_spec (s : Summary) :
    ∀ r ∈ receiversOf s,
      r.name ∈ members ∧ net s r.name < -(1/100) ∧ r.amount = -(net s r.name) := by
  intro r hr
  unfold receiversOf at hr
  rcases List.mem_map.mp hr with ⟨n, hn, rfl⟩
  rcases List.mem_filter.mp hn with ⟨hmem, hcond⟩
  exact ⟨hmem, of_decide_eq_true hcond, rfl⟩

/-- Splitting a sum over a list into two mutually exclusive filters when
everything outside both filters maps to zero. -/
lemma sum_split_three (M : List String) (f : String → ℚ) (p q : String → Bool)
    (hx : ∀ m ∈ M, p m = true → q m = false)
    (h0 : ∀ m ∈ M, p m = false → q m = false → f m = 0) :
    (M.map f).sum = ((M.filter p).map f).sum + ((M.filter q).map f).sum := by
  induction M with
  | nil => simp
  | cons x xs ih =>
    have ih' := ih (fun m hm => hx m (List.mem_cons_of_mem x hm))
      (fun m hm => h0 m (List.mem_cons_of_mem x hm))
    rcases hp : p x with _ | _
    · rcases hq : q x with _ | _
      · rw [List.filter_cons_of_neg (by simp [hp]), List.filter_cons_of_neg (by simp [hq]),
          List.map_cons, List.sum_cons, ih', h0 x (List.mem_cons_self x xs) hp hq]
        ring
      · rw [List.filter_cons_of_neg (by simp [hp]), List.filter_cons_of_pos hq,
          List.map_cons, List.map_cons, List.sum_cons, List.sum_cons, ih']
        ring
    · have hq : q x = false := hx x (List.mem_cons_self x xs) hp
      rw [List.filter_cons_of_pos hp, List.filter_cons_of_neg (by simp [hq]),
        List.map_cons, List.map_cons, List.sum_cons, List.sum_cons, ih']
      ring

lemma sum_map_neg_fn (L : List String) (g : String → ℚ) :
    (L.map (fun n => -(g n))).sum = -((L.map g).sum) := by
  induction L with
  | nil => simp
  | cons x xs ih =>
    rw [List.map_cons, List.map_cons, List.sum_cons, List.sum_cons, ih]
    ring

/-- Under the exact trichotomy (`net > 0.01`, `net < -0.01`, or `net = 0`)
and the zero-sum hypothesis, total debt equals total credit. -/
lemma debtors_receivers_balance (s : Summary)
    (h1 : ∀ m ∈ members, net s m > 1/100 ∨ net s m < -(1/100) ∨ net s m = 0)
    (h2 : memberNetSum s = 0) :
    sumAmounts (debtorsOf s) = sumAmounts (receiversOf s) := by
  have hsplit := sum_split_three members (fun m => net s m)
    (fun n => decide (net s n > 1/100)) (fun n => decide (net s n < -(1/100)))
    (by
      intro m _ hp
      have hp' : decide (net s m > 1/100) = true := hp
      have hgt : net s m > 1/100 := of_decide_eq_true hp'
      apply decide_eq_false
      intro hlt
      linarith)
    (by
      intro m hm hp hq
      have hp' : decide (net s m > 1/100) = false := hp
      have hq' : decide (net s m < -(1/100)) = false := hq
      rcases h1 m hm with h | h | h
      · exact absurd h (of_decide_eq_false hp')
      · exact absurd h (of_decide_eq_false hq')
      · exact h)
  have hds : sumAmounts (debtorsOf s)
      = ((members.filter (fun n => decide (net s n > 1/100))).map (fun n => net s n)).sum :=
    sumAmounts_mk _ _
  have hrs : sumAmounts (receiversOf s)
      = -(((members.filter (fun n => decide (net s n < -(1/100)))).map (fun n => net s n)).sum) := by
    unfold receiversOf
    rw [sumAmounts_mk, sum_map_neg_fn]
  have h2' : (members.map (fun m => net s m)).sum = 0 := h2
  rw [h2'] at hsplit
  rw [hds, hrs]
  linarith

/-- When either class is empty, the trichotomy and zero-sum hypotheses
force every member's net to be exactly zero. -/
lemma all_zero_of_empty (s : Summary)
    (h1 : ∀ m ∈ members, net s m > 1/100 ∨ net s m < -(1/100) ∨ net s m = 0)
    (h2 : memberNetSum s = 0)
    (hemp : debtorsOf s = [] ∨ receiversOf s = []) :
    ∀ m ∈ members, net s m = 0 := by
  have hbal := debtors_receivers_balance s h1 h2
  have hboth : debtorsOf s = [] ∧ receiversOf s = [] := by
    rcases hemp with h | h
    · refine ⟨h, ?_⟩
      rw [h] at hbal
      have hpos : ∀ a ∈ (receiversOf s).map Entry.amount, 0 < a := by
        intro a ha
        rcases List.mem_map.mp ha with ⟨r, hr, rfl⟩
        have hsp := receiversOf_spec s r hr
        rw [hsp.2.2]
        linarith [hsp.2.1]
      have hz : ((receiversOf s).map Entry.amount).sum = 0 := hbal.symm
      have hnil : (receiversOf s).map Entry.amount = [] := by
        by_contra hne
        have hlt : 0 < ((receiversOf s).map Entry.amount).sum := by
          rcases hmap : (receiversOf s).map Entry.amount with _ | ⟨b, bs⟩
          · exact absurd hmap hne
          · rw [List.sum_cons]
            have hb := hpos b (by rw [hmap]; exact List.mem_cons_self b bs)
            have hbs : 0 ≤ bs.sum := List.sum_nonneg (fun c hc =>
              le_of_lt (hpos c (by rw [hmap]; exact List.mem_cons_of_mem b hc)))
            linarith
        linarith
      exact List.map_eq_nil_iff.mp hnil
    · refine ⟨?_, h⟩
      rw [h] at hbal
      have hpos : ∀ a ∈ (debtorsOf s).map Entry.amount, 0 < a := by
        intro a ha
        rcases List.mem_map.mp ha with ⟨d, hd, rfl⟩
        have hsp := debtorsOf_spec s d hd
        rw [hsp.2.2]
        linarith [hsp.2.1]
      have hz : ((debtorsOf s).map Entry.amount).sum = 0 := hbal
      have hnil : (debtorsOf s).map Entry.amount = [] := by
        by_contra hne
        have hlt : 0 < ((debtorsOf s).map Entry.amount).sum := by
          rcases hmap : (debtorsOf s).map Entry.amount with _ | ⟨b, bs⟩
          · exact absurd hmap hne
          · rw [List.sum_cons]
            have hb := hpos b (by rw [hmap]; exact List.mem_cons_self b bs)
            have hbs : 0 ≤ bs.sum := List.sum_nonneg (fun c hc =>
              le_of_lt (hpos c (by rw [hmap]; exact List.mem_cons_of_mem b hc)))
            linarith
        linarith
      exact List.map_eq_nil_iff.mp hnil
  intro m hm
  rcases h1 m hm with h | h | h
  · exfalso
    have : m ∈ (debtorsOf s).map Entry.name := (mem_debtorsOf_names s m).mpr ⟨hm, h⟩
    rw [hboth.1] at this
    simp at this
  · exfalso
    have : m ∈ (receiversOf s).map Entry.name := (mem_receiversOf_names s m).mpr ⟨hm, h⟩
    rw [hboth.2] at this
    simp at this
  · exact h

lemma settleWith_cons (debtors : List Entry) (hub : Entry) (rest : List Entry) :
    settleWith debtors (hub :: rest)
      = debtors.map (fun d => { payer := d.name, payee := hub.name, amount := d.amount })
        ++ rest.map (fun r => { payer := hub.name, payee := r.name, amount := r.amount }) := rfl

/-- A zero-sum summary with a member ("Chire") whose net is small but
non-zero (0.005, inside the 0.01 settlement tolerance), used to refute
C2 as stated. -/
def badSummary : Summary := fun m =>
  if m = "Asim" then { paid := 0, share := 5 }
  else if m = "Appy" then { paid := 1001/200, share := 0 }
  else if m = "Chire" then { paid := 0, share := 1/200 }
  else { paid := 0, share := 0 }

/-- **C2 counterexample**: in `badSummary` the nets are
Asim `5`, Appy `-5.005`, Chire `0.005` (sum `0`).  The plan is the single
transaction Asim→Appy `5`, so Appy net-receives `5 ≠ 5.005 = -net(Appy)`:
the claimed identity fails for the creditor even though the summary is
zero-sum. -/
theorem c2_counterexample :
    inflow (computeSettlement badSummary) "Appy"
        - outflow (computeSettlement badSummary) "Appy"
      ≠ -(net badSummary "Appy") := by
  have hD : debtorsOf badSummary = [{ name := "Asim", amount := 5 }] := by decide
  have hR : receiversOf badSummary = [{ name := "Appy", amount := 1001/200 }] := by decide
  have hset : computeSettlement badSummary
      = [{ payer := "Asim", payee := "Appy", amount := 5 }] := by
    unfold computeSettlement
    rw [hD, hR, if_neg (by simp)]
    unfold sortReceivers
    rw [List.mergeSort_singleton]
    rfl
  rw [hset]
  decide

/-- **C2 (amended)**: the settlement-balance identity
`inflow(X) - outflow(X) = -net(X)` holds for every roster member X
provided the summary's nets sum to zero **and** every member is either a
debtor (`net > 0.01`), a creditor (`net < -0.01`) or exactly settled
(`net = 0`).  (Members with small non-zero nets inside the 0.01
tolerance are silently dropped by the planner, which breaks the identity
at the hub — see the counterexample.) -/
theorem c2_settlement_balance (s : Summary)
    (h1 : ∀ m ∈ members, net s m > 1/100 ∨ net s m < -(1/100) ∨ net s m = 0)
    (h2 : memberNetSum s = 0)
    (x : String) (hx : x ∈ members) :
    inflow (computeSettlement s) x - outflow (computeSettlement s) x = -(net s x) := by
  unfold computeSettlement
  by_cases hemp : debtorsOf s = [] ∨ receiversOf s = []
  · rw [if_pos hemp, all_zero_of_empty s h1 h2 hemp x hx]
    simp [inflow, outflow]
  · rw [if_neg hemp]
    push_neg at hemp
    obtain ⟨hd, hr⟩ := hemp
    have hperm : List.Perm (sortReceivers (receiversOf s)) (receiversOf s) := by
      unfold sortReceivers
      exact List.mergeSort_perm _ _
    rcases hsort : sortReceivers (receiversOf s) with _ | ⟨hub, rest⟩
    · rw [hsort] at hperm
      exact absurd (hperm.symm.eq_nil) hr
    · rw [hsort] at hperm
      have hsubR : ∀ r ∈ hub :: rest,
          r.name ∈ members ∧ net s r.name < -(1/100) ∧ r.amount = -(net s r.name) :=
        fun r hrr => receiversOf_spec s r (hperm.subset hrr)
      have hhub := hsubR hub (List.mem_cons_self hub rest)
      have hnamesperm : List.Perm ((hub :: rest).map Entry.name)
          ((receiversOf s).map Entry.name) := hperm.map _
      have hnodup : ((hub :: rest).map Entry.name).Nodup :=
        hnamesperm.symm.nodup (receiversOf_names_nodup s)
      rw [List.map_cons] at hnodup
      rcases List.nodup_cons.mp hnodup with ⟨hhubrest, hrestnodup⟩
      have hsumrec : sumAmounts (hub :: rest) = sumAmounts (receiversOf s) :=
        (hperm.map Entry.amount).sum_eq
      rw [sumAmounts_cons] at hsumrec
      have hbal := debtors_receivers_balance s h1 h2
      rw [settleWith_cons, inflow_append, outflow_append, inflow_toHub, outflow_toHub,
        inflow_fromHub, outflow_fromHub]
      have hnsD : nameSum (debtorsOf s) x
          = if x ∈ (debtorsOf s).map Entry.name then net s x else 0 :=
        nameSum_eval _ (fun n => net s n) x (fun d hdd => (debtorsOf_spec s d hdd).2.2)
          (debtorsOf_names_nodup s)
      have hnsR : nameSum rest x
          = if x ∈ rest.map Entry.name then -(net s x) else 0 :=
        nameSum_eval _ (fun n => -(net s n)) x
          (fun r hrr => (hsubR r (List.mem_cons_of_mem hub hrr)).2.2) hrestnodup
      rw [hnsD, hnsR]
      rcases h1 x hx with hcase | hcase | hcase
      · -- x is a debtor
        have hxD : x ∈ (debtorsOf s).map Entry.name := (mem_debtorsOf_names s x).mpr ⟨hx, hcase⟩
        have hhx : hub.name ≠ x := by
          intro he
          have hlt := hhub.2.1
          rw [he] at hlt
          linarith
        have hxR : x ∉ rest.map Entry.name := by
          intro hmem
          rcases List.mem_map.mp hmem with ⟨r, hrr, hname⟩
          have hlt := (hsubR r (List.mem_cons_of_mem hub hrr)).2.1
          rw [hname] at hlt
          linarith
        rw [if_neg hhx, if_neg hhx, if_pos hxD, if_neg hxR]
        ring
      · -- x is a creditor
        by_cases hhx : hub.name = x
        · have hxD : x ∉ (debtorsOf s).map Entry.name := by
            intro hmem
            linarith [((mem_debtorsOf_names s x).mp hmem).2]
          have hxR : x ∉ rest.map Entry.name := hhx ▸ hhubrest
          rw [if_pos hhx, if_pos hhx, if_neg hxD, if_neg hxR]
          have hamt : hub.amount = -(net s x) := by rw [hhub.2.2, hhx]
          linarith [hbal, hsumrec, hamt]
        · have hxR : x ∈ rest.map Entry.name := by
            have hx2 : x ∈ (hub :: rest).map Entry.name :=
              hnamesperm.mem_iff.mpr ((mem_receiversOf_names s x).mpr ⟨hx, hcase⟩)
            rw [List.map_cons, List.mem_cons] at hx2
            rcases hx2 with h | h
            · exact absurd h (fun hh => hhx hh.symm)
            · exact h
          have hxD : x ∉ (debtorsOf s).map Entry.name := by
            intro hmem
            linarith [((mem_debtorsOf_names s x).mp hmem).2]
          rw [if_neg hhx, if_neg hhx, if_neg hxD, if_pos hxR]
          ring
      · -- x is exactly settled
        have hxD : x ∉ (debtorsOf s).map Entry.name := by
          intro hmem
          have hgt := ((mem_debtorsOf_names s x).mp hmem).2
          rw [hcase] at hgt
          norm_num at hgt
        have hhx : hub.name ≠ x := by
          intro he
          have hlt := hhub.2.1
          rw [he, hcase] at hlt
          norm_num at hlt
        have hxR : x ∉ rest.map Entry.name := by
          intro hmem
          rcases List.mem_map.mp hmem with ⟨r, hrr, hname⟩
          have hlt := (hsubR r (List.mem_cons_of_mem hub hrr)).2.1
          rw [hname, hcase] at hlt
          norm_num at hlt
        rw [if_neg hhx, if_neg hhx, if_neg hxD, if_neg hxR, hcase]
        ring

/-- Witness for the amended C2 on the spec §8 scenario summary: Appy
net-receives exactly 50. -/
theorem c2_settlement_balance_witness :
    (∀ m ∈ members,
        net exSummaryW m > 1/100 ∨ net exSummaryW m < -(1/100) ∨ net exSummaryW m = 0) ∧
    memberNetSum exSummaryW = 0 ∧
    inflow (computeSettlement exSummaryW) "Appy"
        - outflow (computeSettlement exSummaryW) "Appy"
      = -(net exSummaryW "Appy") := by
  exact ⟨by decide, by decide,
    c2_settlement_balance exSummaryW (by decide) (by decide) "Appy" (by decide)⟩

/-! ## Period/handover selection (`generateHandover`) -/

/-- A past handover record (source fields `start`/`end`; `end` is a Lean
keyword so the embedding names them `startDate`/`endDate`). -/
structure Handover where
  id : Nat := 0
  startDate : String := ""
  endDate : String := ""
deriving DecidableEq

/-- `expenses.reduce((min, exp) => exp.date < min ? exp.date : min,
expenses[0].date)` — callers guard `expenses.length === 0`, so the `[]`
case is never reached by the source. -/
def earliestExpenseDate (expenses : List Expense) : String :=
  match expenses with
  | [] => ""
  | e :: rest => (e :: rest).foldl (fun mn x => if x.date < mn then x.date else mn) e.date

/-- The period start: the last handover's `end` when past handovers
exist, else the earliest active expense date. -/
def handoverStartDate (expenses : List Expense) (handovers : List Handover) : String :=
  match handovers.getLast? with
  | none => earliestExpenseDate expenses
  | some h => h.endDate

/-- The expense-selection filter of `generateHandover`: for the very
first handover `date >= startDate && date <= date`, otherwise
`date > startDate && date <= date` (ISO strings compared
lexicographically, as in the source). -/
def selectHandoverExpenses (expenses : List Expense) (handovers : List Handover)
    (date : String) : List Expense :=
  let startDate := handoverStartDate expenses handovers
  if handovers.length = 0 then
    expenses.filter (fun e => decide (startDate ≤ e.date) && decide (e.date ≤ date))
  else
    expenses.filter (fun e => decide (startDate < e.date) && decide (e.date ≤ date))

/-- **C6** (boundary inclusion): with no past periods the selection is
exactly `periodStart ≤ date ≤ candidateEnd` (periodStart = earliest
active date); with past periods it is exactly
`lastEnd < date ≤ candidateEnd`, so an expense dated exactly on the
prior boundary is excluded. -/
theorem c6_boundary (expenses : List Expense) (handovers : List Handover)
    (date : String) (e : Expense) :
    (handovers = [] →
      (e ∈ selectHandoverExpenses expenses handovers date ↔
        e ∈ expenses ∧ earliestExpenseDate expenses ≤ e.date ∧ e.date ≤ date)) ∧
    (∀ h, handovers.getLast? = some h →
      ((e ∈ selectHandoverExpenses expenses handovers date ↔
          e ∈ expenses ∧ h.endDate < e.date ∧ e.date ≤ date) ∧
        (e.date = h.endDate → e ∉ selectHandoverExpenses expenses handovers date))) := by
  constructor
  · intro hh
    subst hh
    simp [selectHandoverExpenses, handoverStartDate, List.mem_filter, and_assoc]
  · intro h hlast
    have hne : handovers ≠ [] := by
      intro hc
      rw [hc] at hlast
      simp at hlast
    have hlen : handovers.length ≠ 0 := fun hc => hne (List.length_eq_zero.mp hc)
    have hstart : handoverStartDate expenses handovers = h.endDate := by
      unfold handoverStartDate
      rw [hlast]
    constructor
    · unfold selectHandoverExpenses
      rw [if_neg hlen, hstart]
      simp [List.mem_filter, and_assoc]
    · intro hdate hmem
      unfold selectHandoverExpenses at hmem
      rw [if_neg hlen, hstart] at hmem
      rcases List.mem_filter.mp hmem with ⟨-, hcond⟩
      simp only [Bool.and_eq_true, decide_eq_true_eq] at hcond
      rw [hdate] at hcond
      exact lt_irrefl _ hcond.1

/-- The spec §8 boundary scenario: one closed period ending 2024-01-31. -/
def exHandover : Handover := { id := 1, startDate := "2024-01-01", endDate := "2024-01-31" }

def exExpBoundary : Expense := { id := 1, date := "2024-01-31", amount := 5, payer := "Asim" }

def exExpInside : Expense := { id := 2, date := "2024-02-10", amount := 6, payer := "Asim" }

def exExpLate : Expense := { id := 3, date := "2024-03-01", amount := 7, payer := "Asim" }

def exActive : List Expense := [exExpBoundary, exExpInside, exExpLate]

/-- Witness for C6 on the spec scenario: 2024-02-10 is selected;
the boundary expense dated 2024-01-31 is excluded. -/
theorem c6_boundary_witness :
    exExpInside ∈ selectHandoverExpenses exActive [exHandover] "2024-02-28" ∧
    exExpBoundary ∉ selectHandoverExpenses exActive [exHandover] "2024-02-28" :=
  ⟨(((c6_boundary exActive [exHandover] "2024-02-28" exExpInside).2 exHandover rfl).1).mpr
      ⟨by decide, by simp [exHandover, exExpInside]; decide,
        by simp [exExpInside]; decide⟩,
   ((c6_boundary exActive [exHandover] "2024-02-28" exExpBoundary).2 exHandover rfl).2 rfl⟩

/-! ## Handover commit (`confirmHandover`)

The remote store is modelled as the list of expense rows; `insertFails`
says whether the `handovers` insert was rejected (the source then
alerts and returns early), and `updFails id` whether the
`update({handover_id}).eq('id', id)` call for that expense failed (the
source only logs such an error and continues).  After the loop the
source filters the local array and then reloads everything from the
store (`loadData`), so the final active list is the store rows whose
`handover_id` is still null.  The Bool in the result records whether a
failure was reported to the user (the early-return alert); when the
loop finishes, the source reports success even if updates failed. -/

/-- The per-expense update loop: rows whose id is selected and whose
update call succeeds get stamped with the new handover id. -/
def archiveUpdates (store : List Expense) (ids : List Nat) (hid : Nat)
    (updFails : Nat → Bool) : List Expense :=
  store.map (fun e =>
    if ids.contains e.id && !(updFails e.id) then { e with handover_id := some hid } else e)

/-- `confirmHandover`: returns (new in-memory active list, new store,
failure-reported flag). -/
def confirmHandover (active store : List Expense) (ids : List Nat)
    (insertFails : Bool) (hid : Nat) (updFails : Nat → Bool) :
    List Expense × List Expense × Bool :=
  if insertFails then (active, store, true)
  else
    let store2 := archiveUpdates store ids hid updFails
    (store2.filter (fun e => e.handover_id.isNone), store2, false)

def exStoreE1 : Expense :=
  { id := 1, date := "2024-01-02", amount := 5, payer := "Asim", responsible := some ["All"] }

def exStoreE2 : Expense :=
  { id := 2, date := "2024-01-03", amount := 6, payer := "Appy", responsible := some ["All"] }

def exStore : List Expense := [exStoreE1, exStoreE2]

/-- **C7 counterexample**: committing ids `[1, 2]` where the update call
for id 1 fails: the expense with id 2 is nevertheless archived (stamped
and dropped from the active set) and no failure is reported — the
active set is *not* left unchanged on a failed remote call. -/
theorem c7_counterexample :
    (fun i => i == 1) 1 = true ∧
    (confirmHandover exStore exStore [1, 2] false 9 (fun i => i == 1)).2.2 = false ∧
    (confirmHandover exStore exStore [1, 2] false 9 (fun i => i == 1)).1 = [exStoreE1] ∧
    { exStoreE2 with handover_id := some 9 }
      ∈ (confirmHandover exStore exStore [1, 2] false 9 (fun i => i == 1)).2.1 ∧
    (confirmHandover exStore exStore [1, 2] false 9 (fun i => i == 1)).1 ≠ exStore := by
  decide

/-- **C7 (amended)**: only a failure of the handover-*insert* call
leaves the state unchanged and reports the failure.  When the insert
succeeds, no failure is ever reported; an expense whose individual
update call failed stays active (it re-appears after the reload), while
every expense whose update succeeded is archived even if other updates
failed — a partial commit. -/
theorem c7_commit_amended (active store : List Expense) (ids : List Nat) (hid : Nat)
    (updFails : Nat → Bool) :
    (confirmHandover active store ids true hid updFails = (active, store, true)) ∧
    ((confirmHandover active store ids false hid updFails).2.2 = false) ∧
    (∀ e ∈ store, e.handover_id = none → ids.contains e.id = true → updFails e.id = true →
      e ∈ (confirmHandover active store ids false hid updFails).1) ∧
    (∀ e ∈ store, ids.contains e.id = true → updFails e.id = false →
      { e with handover_id := some hid }
        ∈ (confirmHandover active store ids false hid updFails).2.1) := by
  refine ⟨?_, ?_, ?_, ?_⟩
  · unfold confirmHandover
    rw [if_pos rfl]
  · unfold confirmHandover
    rw [if_neg (by simp)]
  · intro e he hnone hin hfail
    unfold confirmHandover
    rw [if_neg (by simp)]
    show e ∈ (archiveUpdates store ids hid updFails).filter (fun e => e.handover_id.isNone)
    apply List.mem_filter.mpr
    refine ⟨?_, by rw [hnone]; rfl⟩
    unfold archiveUpdates
    have hfe : (fun x => if ids.contains x.id && !(updFails x.id)
        then { x with handover_id := some hid } else x) e = e := by
      simp [hfail]
    exact hfe ▸ List.mem_map_of_mem _ he
  · intro e he hin hok
    unfold confirmHandover
    rw [if_neg (by simp)]
    show { e with handover_id := some hid } ∈ archiveUpdates store ids hid updFails
    unfold archiveUpdates
    have hfe : (fun x => if ids.contains x.id && !(updFails x.id)
        then { x with handover_id := some hid } else x) e
          = { e with handover_id := some hid } := by
      show (if ids.contains e.id && !(updFails e.id)
        then { e with handover_id := some hid } else e) = { e with handover_id := some hid }
      rw [hin, hok]
      exact if_pos (by decide)
    exact hfe ▸ List.mem_map_of_mem _ he

/-- Witness for the amended C7: in the `exStore` commit with the id-1
update failing, expense 1 stays active and expense 2 is archived. -/
theorem c7_commit_amended_witness :
    exStoreE1 ∈ (confirmHandover exStore exStore [1, 2] false 9 (fun i => i == 1)).1 ∧
    { exStoreE2 with handover_id := some 9 }
      ∈ (confirmHandover exStore exStore [1, 2] false 9 (fun i => i == 1)).2.1 :=
  ⟨(c7_commit_amended exStore exStore [1, 2] 9 (fun i => i == 1)).2.2.1 exStoreE1
      (by decide) (by decide) (by decide) (by decide),
   (c7_commit_amended exStore exStore [1, 2] 9 (fun i => i == 1)).2.2.2 exStoreE2
      (by decide) (by decide) (by decide)⟩

/-! ## Category aggregator (`computeCategoryTotalsFromList`) -/

/-- `totals[category] += amt` on the category→total table (every key is
initialised, so for a known category this is a pointwise update). -/
def addToCategory (totals : List (String × ℚ)) (cat : String) (amt : ℚ) :
    List (String × ℚ) :=
  totals.map (fun p => if p.1 = cat then (p.1, p.2 + amt) else p)

/-- The body of the `list.forEach(exp => ...)` loop of
`computeCategoryTotalsFromList`. -/
def categoryStep (person : String) (totals : List (String × ℚ)) (e : Expense) :
    List (String × ℚ) :=
  let respList := resolveResponsibility (respOf e)
  let share := e.amount / shareDivisor respList
  if person = "All" then addToCategory totals e.category e.amount
  else if person ∈ respList then addToCategory totals e.category share
  else totals

/-- `computeCategoryTotalsFromList(list, person)`: initialise every
known category to zero and fold the loop body. -/
def computeCategoryTotalsFromList (list : List Expense) (person : String) :
    List (String × ℚ) :=
  list.foldl (categoryStep person) (categories.map (fun c => (c, 0)))

lemma categories_nodup : categories.Nodup := by decide

lemma addToCategory_keys (t : List (String × ℚ)) (c : String) (a : ℚ) :
    (addToCategory t c a).map Prod.fst = t.map Prod.fst := by
  unfold addToCategory
  induction t with
  | nil => rfl
  | cons p t ih =>
    simp only [List.map_cons, ih]
    congr 1
    by_cases h : p.1 = c
    · rw [if_pos h]
    · rw [if_neg h]

lemma addToCategory_sum (t : List (String × ℚ)) (c : String) (a : ℚ)
    (hc : c ∈ t.map Prod.fst) (hnd : (t.map Prod.fst).Nodup) :
    ((addToCategory t c a).map Prod.snd).sum = (t.map Prod.snd).sum + a := by
  unfold addToCategory
  induction t with
  | nil => simp at hc
  | cons p t ih =>
    rw [List.map_cons] at hnd hc
    rcases List.nodup_cons.mp hnd with ⟨hp, ht⟩
    by_cases h : p.1 = c
    · have hct : c ∉ t.map Prod.fst := h ▸ hp
      have htail : t.map (fun p => if p.1 = c then (p.1, p.2 + a) else p) = t := by
        have hfix : ∀ q ∈ t, (if q.1 = c then (q.1, q.2 + a) else q) = q := by
          intro q hq
          have hqc : q.1 ≠ c := fun hqc => hct (hqc ▸ List.mem_map_of_mem Prod.fst hq)
          rw [if_neg hqc]
        rw [List.map_congr_left hfix]
        exact List.map_id t
      rw [List.map_cons, if_pos h, htail, List.map_cons, List.sum_cons, List.map_cons,
        List.sum_cons]
      ring
    · have hct : c ∈ t.map Prod.fst := by
        rcases List.mem_cons.mp hc with hceq | hmem
        · exact absurd hceq.symm h
        · exact hmem
      rw [List.map_cons, if_neg h, List.map_cons, List.sum_cons, List.map_cons, List.sum_cons,
        ih hct ht]
      ring

lemma categoryFold_all (list : List Expense) (t : List (String × ℚ))
    (hk : t.map Prod.fst = categories)
    (h : ∀ e ∈ list, e.category ∈ categories) :
    ((list.foldl (categoryStep "All") t).map Prod.snd).sum
        = (t.map Prod.snd).sum + (list.map Expense.amount).sum ∧
    (list.foldl (categoryStep "All") t).map Prod.fst = categories := by
  induction list generalizing t with
  | nil => simp [hk]
  | cons e l ih =>
    rw [List.foldl_cons]
    have hstep : categoryStep "All" t e = addToCategory t e.category e.amount := by
      unfold categoryStep
      rw [if_pos rfl]
    rw [hstep]
    have hk' : (addToCategory t e.category e.amount).map Prod.fst = categories := by
      rw [addToCategory_keys, hk]
    have hsum := addToCategory_sum t e.category e.amount
      (by rw [hk]; exact h e (List.mem_cons_self e l)) (by rw [hk]; exact categories_nodup)
    obtain ⟨ihs, ihk⟩ := ih (addToCategory t e.category e.amount) hk'
      (fun x hx => h x (List.mem_cons_of_mem e hx))
    refine ⟨?_, ihk⟩
    rw [ihs, hsum, List.map_cons, List.sum_cons]
    ring

/-- **C8**: for a list of expenses whose categories are all known, the
`'All'` category totals sum to the total amount spent, and the table's
keys are exactly the category enumeration (zero-valued categories
included). -/
theorem c8_category_totals (list : List Expense) (h : ∀ e ∈ list, e.category ∈ categories) :
    ((computeCategoryTotalsFromList list "All").map Prod.snd).sum
        = (list.map Expense.amount).sum ∧
    (computeCategoryTotalsFromList list "All").map Prod.fst = categories := by
  unfold computeCategoryTotalsFromList
  have hinit : (categories.map (fun c => (c, (0:ℚ)))).map Prod.fst = categories := by decide
  obtain ⟨hs, hk⟩ := categoryFold_all list _ hinit h
  refine ⟨?_, hk⟩
  rw [hs]
  have hz : ((categories.map (fun c => (c, (0:ℚ)))).map Prod.snd).sum = 0 := by decide
  rw [hz, zero_add]

def exCatExpenses : List Expense :=
  [{ amount := 3, category := "Groceries", payer := "Asim", responsible := some ["All"] },
   { amount := 4, category := "Transport", payer := "Appy", responsible := some ["All"] }]

/-- Witness for C8 on two expenses totalling 7. -/
theorem c8_category_totals_witness :
    (∀ e ∈ exCatExpenses, e.category ∈ categories) ∧
    ((computeCategoryTotalsFromList exCatExpenses "All").map Prod.snd).sum
      = (exCatExpenses.map Expense.amount).sum :=
  ⟨by decide, (c8_category_totals exCatExpenses (by decide)).1⟩

end HouseExpense
